import Mathlib

/-!
Verification of the terminal-output-to-raster pipeline of `richrs`
(`scripts/record_all.py` and `scripts/record_demos.py`) against its
natural-language specification.

The Python source is shallowly embedded: strings become `List Char`,
Python `int` values become `Int` (or `Nat` where the source can only
produce non-negative values), fallible code (uncaught `ValueError`,
`IndexError`, `OverflowError`) becomes `Option`.  Each definition is a
direct transcription of the function of the same name in the scripts.
-/

namespace Richrs

/-- An RGB triple as produced by the scripts (Python ints). -/
abbrev RGB := Int × Int × Int

/-- The 16-entry base palette literal that appears (identically) in
`get_256_color` of both `record_all.py` (lines 18-23) and
`record_demos.py` (lines 143-148). -/
def colors16 : List RGB :=
  [(0, 0, 0), (205, 49, 49), (13, 188, 121), (229, 229, 16),
   (36, 114, 200), (188, 63, 188), (17, 168, 205), (229, 229, 229),
   (102, 102, 102), (241, 76, 76), (35, 209, 139), (245, 245, 67),
   (59, 142, 234), (214, 112, 214), (41, 184, 219), (255, 255, 255)]

/-- Python list subscripting `l[i]` with an `int` index: non-negative
indices count from the front, negative indices from the back, and an
index out of `-len(l) ≤ i < len(l)` raises `IndexError` (modelled as
`none`). -/
def pyListGet (l : List RGB) (i : Int) : Option RGB :=
  if 0 ≤ i ∧ i < l.length then l.get? i.toNat
  else if -(l.length : Int) ≤ i ∧ i < 0 then l.get? (l.length + i).toNat
  else none

/-- `get_256_color(idx)` from `record_all.py` lines 15-33 (the copy in
`record_demos.py` lines 139-160 is textually identical).  The `idx < 16`
branch subscripts the 16-entry table (Python subscripting, so negative
indices wrap or raise `IndexError`); `16 ≤ idx < 232` computes the
6×6×6 cube; every `idx ≥ 232` takes the grayscale formula.  Divisions
only occur on the non-negative `idx - 16`, where Lean's `Int` division
agrees with Python's floor division. -/
def get_256_color (idx : Int) : Option RGB :=
  if idx < 16 then
    pyListGet colors16 idx
  else if idx < 232 then
    let j := idx - 16
    some ((j / 36) * 51, ((j / 6) % 6) * 51, (j % 6) * 51)
  else
    let gray := (idx - 232) * 10 + 8
    some (gray, gray, gray)

theorem colors16_length : colors16.length = 16 := by decide

/-- Claim C8: for `16 ≤ i ≤ 231` the indexed color resolver returns the
6×6×6 cube formula `r = ((i-16)/36)*51`, `g = (((i-16)/6) mod 6)*51`,
`b = ((i-16) mod 6)*51` with truncating integer division, for
`232 ≤ i ≤ 255` it returns `gray = (i-232)*10 + 8` on all three
channels, and index 196 resolves to `(255, 0, 0)`. -/
theorem get_256_color_cube_gray :
    (∀ i : Int, 16 ≤ i → i ≤ 231 →
      get_256_color i =
        some (((i - 16) / 36) * 51, (((i - 16) / 6) % 6) * 51,
              ((i - 16) % 6) * 51)) ∧
    (∀ i : Int, 232 ≤ i → i ≤ 255 →
      get_256_color i =
        some ((i - 232) * 10 + 8, (i - 232) * 10 + 8, (i - 232) * 10 + 8)) ∧
    get_256_color 196 = some (255, 0, 0) := by
  refine ⟨?_, ?_, ?_⟩
  · intro i h1 h2
    unfold get_256_color
    rw [if_neg (by omega), if_pos (by omega)]
  · intro i h1 h2
    unfold get_256_color
    rw [if_neg (by omega), if_neg (by omega)]
  · decide

/-- Witness for C8: the cube formula at index 100 and the gray formula at
index 240, obtained from `get_256_color_cube_gray` itself. -/
theorem get_256_color_cube_gray_witness :
    get_256_color 100 =
      some (((100 - 16) / 36) * 51, (((100 - 16) / 6) % 6) * 51,
            ((100 - 16) % 6) * 51) ∧
    get_256_color 240 = some (88, 88, 88) :=
  ⟨get_256_color_cube_gray.1 100 (by decide) (by decide),
   get_256_color_cube_gray.2.1 240 (by decide) (by decide)⟩

/-- Claim C3 counterexample: the resolver does not reject the
out-of-range index 256 with an error; it returns the grayscale-formula
triple `(248, 248, 248)`. -/
theorem get_256_color_256_not_rejected :
    get_256_color 256 ≠ none ∧ get_256_color 256 = some (248, 248, 248) := by
  decide

/-- Claim C3 as amended: there is no `InvalidColorIndex` error path.
For every `i > 255` the resolver returns the grayscale formula value;
for `-16 ≤ i ≤ -1` Python's negative list indexing returns an entry of
the 16-color table; only for `i < -16` does the call fail, and then with
an out-of-range list access (Python `IndexError`), not a dedicated
error. -/
theorem get_256_color_out_of_range :
    (∀ i : Int, 255 < i →
      get_256_color i =
        some ((i - 232) * 10 + 8, (i - 232) * 10 + 8, (i - 232) * 10 + 8)) ∧
    (∀ i : Int, -16 ≤ i → i < 0 →
      get_256_color i = colors16.get? (16 + i).toNat ∧
        (get_256_color i).isSome) ∧
    (∀ i : Int, i < -16 → get_256_color i = none) := by
  refine ⟨?_, ?_, ?_⟩
  · intro i h
    unfold get_256_color
    rw [if_neg (by omega), if_neg (by omega)]
  · intro i h1 h2
    unfold get_256_color pyListGet
    rw [if_pos (by omega)]
    rw [if_neg (by omega), if_pos (by rw [colors16_length]; omega)]
    constructor
    · rw [colors16_length]
      norm_num
    · rw [Option.isSome_iff_exists]
      have hlt : ((colors16.length : Int) + i).toNat < colors16.length := by
        rw [colors16_length]; omega
      exact ⟨_, List.get?_eq_get hlt⟩
  · intro i h
    unfold get_256_color pyListGet
    rw [if_pos (by omega), if_neg (by omega), if_neg (by rw [colors16_length]; omega)]

/-! ## Shared scanning helpers

Both `process_terminal_sequences` (which scans `text[j] in '0123456789;'`)
and the regex `\x1b\[([0-9;]*)m` of `parse_ansi_text` use the same
parameter-byte character class. -/

/-- The character class `0123456789;`. -/
def isParamChar (c : Char) : Bool := c.isDigit || c == ';'

/-- Take the maximal leading run of parameter bytes, returning it together
with the remainder (the `while text[j] in '0123456789;'` scan, and the
greedy `[0-9;]*` of the SGR regex — greedy and deterministic because the
possible terminators are not parameter bytes). -/
def takeParams : List Char → List Char × List Char
  | [] => ([], [])
  | c :: cs =>
    if isParamChar c then
      let p := takeParams cs
      (c :: p.1, p.2)
    else ([], c :: cs)

theorem takeParams_append (l : List Char) :
    (takeParams l).1 ++ (takeParams l).2 = l := by
  induction l with
  | nil => rfl
  | cons c cs ih =>
    unfold takeParams
    by_cases h : isParamChar c
    · simp only [h, if_pos, List.cons_append, ih]
    · simp [h]

theorem takeParams_mem {l : List Char} :
    ∀ c ∈ (takeParams l).1, isParamChar c := by
  induction l with
  | nil => intro c h; simp [takeParams] at h
  | cons a cs ih =>
    intro c h
    unfold takeParams at h
    by_cases ha : isParamChar a
    · simp only [ha, if_pos] at h
      rcases List.mem_cons.mp h with h | h
      · exact h ▸ ha
      · exact ih c h
    · simp [ha] at h

theorem takeParams_rest_length (l : List Char) :
    (takeParams l).2.length ≤ l.length := by
  induction l with
  | nil => simp [takeParams]
  | cons c cs ih =>
    unfold takeParams
    by_cases h : isParamChar c
    · simp only [h, if_pos]
      exact Nat.le_succ_of_le ih
    · simp [h]

theorem takeParams_all {l : List Char} (h : ∀ c ∈ l, isParamChar c) :
    takeParams l = (l, []) := by
  induction l with
  | nil => rfl
  | cons c cs ih =>
    unfold takeParams
    rw [if_pos (h c (by simp))]
    rw [ih (fun d hd => h d (by simp [hd]))]

theorem takeParams_frame {ps : List Char} (hps : ∀ c ∈ ps, isParamChar c)
    {m : Char} (hm : ¬ isParamChar m) (z : List Char) :
    takeParams (ps ++ m :: z) = (ps, m :: z) := by
  induction ps with
  | nil => simp [takeParams, hm]
  | cons c cs ih =>
    simp only [List.cons_append]
    unfold takeParams
    rw [if_pos (hps c (by simp))]
    rw [ih (fun d hd => hps d (by simp [hd]))]

/-- Python `int(s)` as applied inside the scripts: the argument is always
drawn from the parameter-byte class `[0-9;]*`, so it succeeds exactly on
non-empty all-digit strings and raises `ValueError` (modelled as `none`)
otherwise (empty string, or a stray `;`). -/
def pyInt (l : List Char) : Option Nat :=
  if l ≠ [] ∧ l.all Char.isDigit then
    some (l.foldl (fun a c => 10 * a + (c.toNat - '0'.toNat)) 0)
  else none

theorem pyInt_digits {l : List Char} (h1 : l ≠ []) (h2 : ∀ c ∈ l, c.isDigit) :
    pyInt l = some (l.foldl (fun a c => 10 * a + (c.toNat - '0'.toNat)) 0) := by
  unfold pyInt
  rw [if_pos ⟨h1, List.all_eq_true.mpr h2⟩]

/-! ## Terminal State Machine: `process_terminal_sequences`

`record_all.py` lines 100-179.  The state is the list of completed lines
plus the in-progress `current_line`; the loop index becomes recursion on
the remaining character list.  An uncaught `ValueError` from
`int(param_str)` in the cursor-up branch becomes `none`. -/

/-- Python `lines[:-n] if len(lines) >= n else []` (line 126).  Note the
`n = 0` quirk: `lines[:-0]` is `lines[:0]`, the empty list. -/
def pySliceDropLast (l : List (List Char)) (n : Nat) : List (List Char) :=
  if l.length ≥ n then
    (if n = 0 then [] else l.take (l.length - n))
  else []

/-- Final `if current_line: lines.append(current_line)` (lines 176-177). -/
def ptsFinish (lines : List (List Char)) (cur : List Char) :
    List (List Char) :=
  if cur = [] then lines else lines ++ [cur]

/-- The `while i < len(text)` loop of `process_terminal_sequences`
(lines 107-174), recursing on the remaining input.  Branches, in source
order: a recognized `ESC [` introducer with its parameter scan (malformed
sequences — parameter bytes running to the end of the buffer — skip just
the ESC byte, line 154); `\r\n`; bare `\r` (resets `current_line`);
`\n`; any other character is appended to `current_line`. -/
def ptsLoop (lines : List (List Char)) (cur : List Char) :
    List Char → Option (List (List Char))
  | '\x1b' :: '[' :: rest =>
    match htp : takeParams rest with
    | (ps, []) =>
      -- malformed sequence: skip the escape byte only (i += 1)
      ptsLoop lines cur ('[' :: rest)
    | (ps, code :: r3) =>
      if code = 'A' then
        let lines1 := ptsFinish lines cur
        match (if ps = [] then some 1 else pyInt ps) with
        | none => none
        | some n => ptsLoop (pySliceDropLast lines1 n) [] r3
      else if code = 'J' then
        if ps = ['2'] then ptsLoop [] [] r3 else ptsLoop lines cur r3
      else if code = 'H' then ptsLoop lines cur r3
      else if code = 'm' then
        ptsLoop lines (cur ++ '\x1b' :: '[' :: (ps ++ [code])) r3
      else if code = 'B' ∨ code = 'C' ∨ code = 'D' ∨ code = 'K' ∨ code = 'G' then
        ptsLoop lines cur r3
      else
        ptsLoop lines (cur ++ '\x1b' :: '[' :: (ps ++ [code])) r3
  | '\r' :: '\n' :: r2 => ptsLoop (lines ++ [cur]) [] r2
  | '\r' :: rest => ptsLoop lines [] rest
  | '\n' :: rest => ptsLoop (lines ++ [cur]) [] rest
  | c :: rest => ptsLoop lines (cur ++ [c]) rest
  | [] => some (ptsFinish lines cur)
termination_by cs => cs.length
decreasing_by
  all_goals
    first
      | (simp only [List.length_cons]; omega)
      | (have h := takeParams_rest_length rest
         rw [htp] at h
         simp only [List.length_cons] at h ⊢
         omega)

/-- `process_terminal_sequences(text)` (lines 100-179): run the loop from
the empty state and `'\n'.join(lines)` the result. -/
def process_terminal_sequences (s : String) : Option String :=
  (ptsLoop [] [] s.data).map fun ls => String.mk (List.intercalate ['\n'] ls)

/-- Parameter bytes are ordinary characters for the state-machine loop:
none of them is `ESC`, `\r` or `\n`. -/
theorem paramChar_plain {c : Char} (h : isParamChar c = true) :
    c ≠ '\x1b' ∧ c ≠ '\r' ∧ c ≠ '\n' := by
  refine ⟨?_, ?_, ?_⟩ <;> rintro rfl <;> revert h <;> decide

/-- A run of ordinary characters is appended verbatim to the current
line, and the loop then finishes. -/
theorem ptsLoop_plain (lines : List (List Char)) {t : List Char}
    (h : ∀ c ∈ t, c ≠ '\x1b' ∧ c ≠ '\r' ∧ c ≠ '\n') (cur : List Char) :
    ptsLoop lines cur t = some (ptsFinish lines (cur ++ t)) := by
  induction t generalizing cur with
  | nil => simp [ptsLoop]
  | cons c t ih =>
    obtain ⟨h1, h2, h3⟩ := h c (by simp)
    rw [ptsLoop.eq_def]
    split <;> simp_all

/-- When the parameter scan runs to the end of the buffer (malformed
sequence), the loop skips just the `ESC` byte (source line 154). -/
theorem ptsLoop_esc_skip (lines : List (List Char)) (cur : List Char)
    {rest : List Char} (h : (takeParams rest).2 = []) :
    ptsLoop lines cur ('\x1b' :: '[' :: rest) = ptsLoop lines cur ('[' :: rest) := by
  rw [ptsLoop.eq_1]
  split
  · rfl
  · rename_i ps code r3 htp
    rw [htp] at h
    simp at h

/-- Full behaviour on a buffer that ends in a malformed sequence: the
`[` and all parameter bytes become literal text; the `ESC` byte is
dropped. -/
theorem ptsLoop_malformed (lines : List (List Char)) (cur : List Char)
    {ps : List Char} (h : ∀ c ∈ ps, isParamChar c) :
    ptsLoop lines cur ('\x1b' :: '[' :: ps) = some (lines ++ [cur ++ '[' :: ps]) := by
  rw [ptsLoop_esc_skip lines cur (by rw [takeParams_all h])]
  rw [ptsLoop_plain lines (t := '[' :: ps) ?hp cur]
  · simp [ptsFinish]
  case hp =>
    intro c hc
    rcases List.mem_cons.mp hc with rfl | hc
    · exact ⟨by decide, by decide, by decide⟩
    · exact paramChar_plain (h c hc)

/-- One step of the loop on a well-formed CursorUp sequence. -/
theorem ptsLoop_cursor_up (lines : List (List Char)) (cur : List Char)
    {ds : List Char} (hds : ∀ c ∈ ds, c.isDigit) (rest : List Char) :
    ptsLoop lines cur ('\x1b' :: '[' :: (ds ++ 'A' :: rest)) =
      match (if ds = [] then some 1 else pyInt ds) with
      | none => none
      | some n => ptsLoop (pySliceDropLast (ptsFinish lines cur) n) [] rest := by
  have hframe : takeParams (ds ++ 'A' :: rest) = (ds, 'A' :: rest) :=
    takeParams_frame (fun c hc => by simp [isParamChar, hds c hc]) (by decide) rest
  rw [ptsLoop.eq_1]
  split
  · rename_i ps htp
    rw [hframe] at htp
    simp at htp
  · rename_i ps code r3 htp
    rw [hframe] at htp
    injection htp with hp hc
    injection hc with hc1 hc2
    subst hp; subst hc1; subst hc2
    rw [if_pos rfl]

/-- For `n ≥ 1`, the slice `lines[:-n] if len(lines) >= n else []`
removes the last `min n len` lines — it keeps the first `len - n`. -/
theorem pySliceDropLast_take (l : List (List Char)) {n : Nat} (h : 1 ≤ n) :
    pySliceDropLast l n = l.take (l.length - n) := by
  unfold pySliceDropLast
  by_cases hlen : l.length ≥ n
  · rw [if_pos hlen, if_neg (by omega)]
  · rw [if_neg hlen]
    have h0 : l.length - n = 0 := by omega
    rw [h0, List.take_zero]

/-- The carriage-return cleanup `re.sub(r'\r', '', text)` of
`record_demos.py` line 169: every `\r` byte is deleted outright. -/
def stripCR (t : List Char) : List Char := t.filter (fun c => c != '\r')

/-- Claim C1 counterexample: in `record_all.py` the stream `"AAAA\rBB"`
produces the single line `"BB"`, not `"BBAA"` — the bare carriage
return discards the old line content instead of performing a
longest-wins overwrite.  The variant in `record_demos.py` deletes the
`\r` and renders `"AAAABB"`; neither yields `"BBAA"`. -/
theorem bare_cr_counterexample :
    process_terminal_sequences "AAAA\rBB" = some "BB" ∧
      ("BB" : String) ≠ "BBAA" ∧
    stripCR ("AAAA\rBB".data) = "AAAABB".data ∧
      ("AAAABB".data : List Char) ≠ "BBAA".data := by
  refine ⟨?_, by decide, by decide, by decide⟩
  simp [process_terminal_sequences, ptsLoop, takeParams, ptsFinish, isParamChar]
  decide

/-- Claim C1 as amended: a bare `\r` (not followed by `\n`) resets the
in-progress line to empty, discarding its previous content entirely;
subsequent characters rebuild the line from scratch, so `"AAAA\rBB"`
yields the single line `"BB"`. -/
theorem bare_cr_resets_line :
    (∀ (lines : List (List Char)) (cur rest : List Char),
        rest.head? ≠ some '\n' →
        ptsLoop lines cur ('\r' :: rest) = ptsLoop lines [] rest) ∧
    process_terminal_sequences "AAAA\rBB" = some "BB" := by
  constructor
  · intro lines cur rest h
    match rest with
    | [] => simp [ptsLoop]
    | c :: t =>
      have hc : c ≠ '\n' := by simpa using h
      rw [ptsLoop.eq_def]
      simp [hc]
  · simp [process_terminal_sequences, ptsLoop, takeParams, ptsFinish, isParamChar]
    decide

/-- Witness for the amended C1, at `lines = [], cur = "A", rest = "B"`. -/
theorem bare_cr_resets_line_witness :
    ptsLoop [] ['A'] ('\r' :: ['B']) = ptsLoop [] [] ['B'] :=
  bare_cr_resets_line.1 [] ['A'] ['B'] (by decide)

/-- Claim C7 counterexample: on the malformed buffer `"\x1b[12"` the
state machine emits `"[12"` — the raw bytes minus the `ESC` byte — not
the full raw bytes `"\x1b[12"`. -/
theorem malformed_sequence_counterexample :
    process_terminal_sequences "\x1b[12" = some "[12" ∧
      ("[12" : String) ≠ "\x1b[12" := by
  constructor
  · simp [process_terminal_sequences, ptsLoop, takeParams, ptsFinish, isParamChar]
    decide
  · decide

/-- Claim C7 as amended: a malformed escape sequence (parameter bytes
running to the end of the buffer with no terminator) is handled by
dropping the `ESC` byte and emitting the remaining bytes (`[` and the
parameter bytes) as literal text; the loop never fails and terminates. -/
theorem malformed_sequence_literal :
    (∀ (lines : List (List Char)) (cur ps : List Char),
        (∀ c ∈ ps, isParamChar c) →
        ptsLoop lines cur ('\x1b' :: '[' :: ps) =
          some (lines ++ [cur ++ '[' :: ps])) ∧
    process_terminal_sequences "\x1b[12" = some "[12" := by
  constructor
  · intro lines cur ps h
    exact ptsLoop_malformed lines cur h
  · simp [process_terminal_sequences, ptsLoop, takeParams, ptsFinish, isParamChar]
    decide

/-- Witness for the amended C7, on the parameter bytes `"12"`. -/
theorem malformed_sequence_literal_witness :
    ptsLoop [] [] ('\x1b' :: '[' :: ['1', '2']) = some [['[', '1', '2']] := by
  have h := malformed_sequence_literal.1 [] [] ['1', '2'] (by decide)
  simpa using h

/-- Claim C9: CursorUp(n) (for `n ≥ 1`) finalizes the current line if it
is non-empty, then removes the last `n` completed lines, removing all of
them and never underflowing when fewer than `n` exist; the stream
`"line1\nline2\x1b[1Aline3"` produces the lines `"line1"`, `"line3"`. -/
theorem cursor_up_removes_lines :
    (∀ (lines : List (List Char)) (cur ds rest : List Char) (n : Nat),
        (∀ c ∈ ds, c.isDigit) →
        (if ds = [] then some 1 else pyInt ds) = some n →
        1 ≤ n →
        ptsLoop lines cur ('\x1b' :: '[' :: (ds ++ 'A' :: rest)) =
          ptsLoop ((ptsFinish lines cur).take ((ptsFinish lines cur).length - n))
            [] rest) ∧
    process_terminal_sequences "line1\nline2\x1b[1Aline3" = some "line1\nline3" := by
  constructor
  · intro lines cur ds rest n hds hn h1
    rw [ptsLoop_cursor_up lines cur hds rest, hn]
    show ptsLoop (pySliceDropLast (ptsFinish lines cur) n) [] rest = _
    rw [pySliceDropLast_take (ptsFinish lines cur) h1]
  · simp [process_terminal_sequences, ptsLoop, takeParams, ptsFinish, isParamChar,
      pyInt, pySliceDropLast]
    decide

/-- Witness for C9: CursorUp(1) with two completed lines and a non-empty
current line. -/
theorem cursor_up_removes_lines_witness :
    ptsLoop [['a'], ['b']] ['c'] ('\x1b' :: '[' :: (['1'] ++ 'A' :: [])) =
      ptsLoop ((ptsFinish [['a'], ['b']] ['c']).take
        ((ptsFinish [['a'], ['b']] ['c']).length - 1)) [] [] :=
  cursor_up_removes_lines.1 [['a'], ['b']] ['c'] ['1'] [] 1 (by decide)
    (by decide) (by decide)

/-! ## SGR parser: `parse_ansi_text`

`record_all.py` lines 36-97 and `record_demos.py` lines 44-136.  The two
copies share the regex `\x1b\[([0-9;]*)m`, the style state and the
segment emission; they differ in how a code list mutates the state
(`record_all` lacks the `40-47` background range and the `48;5;idx`
sub-form). -/

/-- The style state threaded through `parse_ansi_text`
(`current_fg`, `current_bg`, `bold`, `dim`, `italic`, `underline`). -/
structure AnsiState where
  fg : RGB
  bg : RGB
  bold : Bool
  dim : Bool
  italic : Bool
  underline : Bool
deriving DecidableEq, Repr

/-- The initial/reset style state (lines 40-42 and 61-64):
light-gray foreground on the dark background. -/
def initState : AnsiState :=
  ⟨(229, 229, 229), (30, 30, 46), false, false, false, false⟩

/-- The `basic` dict of `record_all.py` lines 71-73, with its
`.get(code, (229,229,229))` default. -/
def basicColorsAll (code : Nat) : RGB :=
  match code with
  | 30 => (0, 0, 0) | 31 => (205, 49, 49) | 32 => (13, 188, 121)
  | 33 => (229, 229, 16) | 34 => (36, 114, 200) | 35 => (188, 63, 188)
  | 36 => (17, 168, 205) | 37 => (229, 229, 229)
  | _ => (229, 229, 229)

/-- The `bright` dict of `record_all.py` lines 75-77, with its
`.get(code, (255,255,255))` default. -/
def brightColorsAll (code : Nat) : RGB :=
  match code with
  | 90 => (102, 102, 102) | 91 => (241, 76, 76) | 92 => (35, 209, 139)
  | 93 => (245, 245, 67) | 94 => (59, 142, 234) | 95 => (214, 112, 214)
  | 96 => (41, 184, 219) | 97 => (255, 255, 255)
  | _ => (255, 255, 255)

/-- `get_ansi_to_rgb(code)` of `record_demos.py` lines 20-41: one dict
for the basic and bright ranges, defaulting to `(229, 229, 229)`. -/
def get_ansi_to_rgb (code : Nat) : RGB :=
  match code with
  | 30 => (0, 0, 0) | 31 => (205, 49, 49) | 32 => (13, 188, 121)
  | 33 => (229, 229, 16) | 34 => (36, 114, 200) | 35 => (188, 63, 188)
  | 36 => (17, 168, 205) | 37 => (229, 229, 229)
  | 90 => (102, 102, 102) | 91 => (241, 76, 76) | 92 => (35, 209, 139)
  | 93 => (245, 245, 67) | 94 => (59, 142, 234) | 95 => (214, 112, 214)
  | 96 => (41, 184, 219) | 97 => (255, 255, 255)
  | _ => (229, 229, 229)

/-- The exact rational value of the double literal `0.6` is
`5404319552844595 / 2^53`. -/
def mant06 : Nat := 5404319552844595

/-- Round a natural number to 53 significant bits — IEEE-754
round-to-nearest, ties-to-even, on the double significand. -/
def roundSig53 (n : Nat) : Nat :=
  if n < 2 ^ 53 then n
  else
    let b := Nat.log2 n
    let s := b - 52
    let q := n >>> s
    let r := n % 2 ^ s
    let half := 2 ^ (s - 1)
    let q1 := if half < r ∨ (r = half ∧ q % 2 = 1) then q + 1 else q
    q1 <<< s

/-- Python `float(c)` on an `int`: round to the nearest double
(integral, so returned exactly as an integer), with `OverflowError`
(`none`) when the rounded magnitude reaches `2^1024`. -/
def pyFloatOfInt (c : Int) : Option Int :=
  let n := roundSig53 c.natAbs
  if 2 ^ 1024 ≤ n then none
  else some (if c < 0 then -(n : Int) else (n : Int))

/-- Python `int(c * 0.6)` — the dim factor of line 49: convert `c` to a
double, multiply by `0.6` (exactly `mant06 / 2^53`) rounding to nearest,
truncate toward zero.  The product has magnitude `< 0.6 · 2^1024` and
cannot overflow.  (Validated bit-for-bit against CPython.) -/
def pyDim06 (c : Int) : Option Int := do
  let a ← pyFloatOfInt c
  let p := a.natAbs * mant06
  let t : Nat := roundSig53 p / 2 ^ 53
  pure (if a < 0 then -(t : Int) else (t : Int))

/-- A styled segment as emitted by `parse_ansi_text`: the tuple
`(segment_text, fg, current_bg, bold, italic, underline)` of lines
50/96. -/
structure Seg where
  text : List Char
  fg : RGB
  bg : RGB
  bold : Bool
  italic : Bool
  underline : Bool
deriving DecidableEq, Repr

/-- `fg = tuple(int(c * 0.6) for c in current_fg) if dim else
current_fg` (line 49/95). -/
def dimFg (st : AnsiState) : Option RGB :=
  if st.dim then do
    let r ← pyDim06 st.fg.1
    let g ← pyDim06 st.fg.2.1
    let b ← pyDim06 st.fg.2.2
    pure (r, g, b)
  else some st.fg

/-- Build the emitted segment tuple from the current state. -/
def mkSeg (st : AnsiState) (txt : List Char) : Option Seg := do
  let fg ← dimFg st
  pure ⟨txt, fg, st.bg, st.bold, st.italic, st.underline⟩

/-- `'a;b'.split(';')` on a character list (keeps empty pieces, always
returns at least one piece). -/
def pySplitSemi : List Char → List (List Char)
  | [] => [[]]
  | c :: t =>
    match pySplitSemi t with
    | [] => [[]]
    | p :: ps => if c = ';' then [] :: p :: ps else (c :: p) :: ps

/-- Does the SGR regex `\x1b\[([0-9;]*)m` match at the start of the
buffer?  Returns the captured parameter bytes and the rest after the
`m`.  The pattern is deterministic: `[0-9;]*` is greedy and cannot give
back characters usefully because `m` is not a parameter byte. -/
def sgrAt : List Char → Option (List Char × List Char)
  | '\x1b' :: '[' :: rest =>
    match takeParams rest with
    | (ps, 'm' :: r) => some (ps, r)
    | _ => none
  | _ => none

/-- One iteration of the code-application `while i < len(codes)` loop of
`record_all.py` lines 53-89, for the code word `c` with the following
code words `rest`: returns the updated state together with how many
extra code words the iteration consumed (the `i += 4` / `i += 2` of the
sub-forms; the loop itself then advances one more).  `pyInt` failure on
`c` is the caught `ValueError` (skip, consume nothing); `pyInt`/index
failure inside a sub-form is uncaught and aborts the parse (`none`).  A
sub-form whose parameters are missing does nothing and consumes nothing,
so its parameter words are reprocessed as ordinary codes.  The `48`
branch supports only the `2;<r>;<g>;<b>` sub-form (lines 85-88). -/
def sgrStepAll (st : AnsiState) (c : List Char) (rest : List (List Char)) :
    Option (AnsiState × Nat) :=
  match pyInt c with
  | none => some (st, 0)
  | some code =>
    if code = 0 then some (initState, 0)
    else if code = 1 then some ({ st with bold := true }, 0)
    else if code = 2 then some ({ st with dim := true }, 0)
    else if code = 3 then some ({ st with italic := true }, 0)
    else if code = 4 then some ({ st with underline := true }, 0)
    else if code = 7 then some ({ st with fg := st.bg, bg := st.fg }, 0)
    else if 30 ≤ code ∧ code ≤ 37 then some ({ st with fg := basicColorsAll code }, 0)
    else if 90 ≤ code ∧ code ≤ 97 then some ({ st with fg := brightColorsAll code }, 0)
    else if code = 38 then
      match rest with
      | [] => some (st, 0)
      | p1 :: r1 =>
        if p1 = ['2'] then
          match r1 with
          | p2 :: p3 :: p4 :: _ =>
            match pyInt p2, pyInt p3, pyInt p4 with
            | some r, some g, some b =>
              some ({ st with fg := ((r : Int), (g : Int), (b : Int)) }, 4)
            | _, _, _ => none
          | _ => some (st, 0)
        else if p1 = ['5'] then
          match r1 with
          | p2 :: _ =>
            match pyInt p2 with
            | some n =>
              match get_256_color n with
              | some col => some ({ st with fg := col }, 2)
              | none => none
            | none => none
          | [] => some (st, 0)
        else some (st, 0)
    else if code = 48 then
      match rest with
      | [] => some (st, 0)
      | p1 :: r1 =>
        if p1 = ['2'] then
          match r1 with
          | p2 :: p3 :: p4 :: _ =>
            match pyInt p2, pyInt p3, pyInt p4 with
            | some r, some g, some b =>
              some ({ st with bg := ((r : Int), (g : Int), (b : Int)) }, 4)
            | _, _, _ => none
          | _ => some (st, 0)
        else some (st, 0)
    else some (st, 0)

/-- One iteration of the code loop of `record_demos.py` lines 70-123:
same shape as `sgrStepAll`, but `30-37`/`90-97` go through
`get_ansi_to_rgb`, `40-47` set the background from
`get_ansi_to_rgb(code - 10)`, and `48` supports both the `5;<idx>` and
`2;<r>;<g>;<b>` sub-forms exactly like `38` (lines 111-122; there the
`5` sub-form is tested first). -/
def sgrStepDemos (st : AnsiState) (c : List Char) (rest : List (List Char)) :
    Option (AnsiState × Nat) :=
  match pyInt c with
  | none => some (st, 0)
  | some code =>
    if code = 0 then some (initState, 0)
    else if code = 1 then some ({ st with bold := true }, 0)
    else if code = 2 then some ({ st with dim := true }, 0)
    else if code = 3 then some ({ st with italic := true }, 0)
    else if code = 4 then some ({ st with underline := true }, 0)
    else if code = 7 then some ({ st with fg := st.bg, bg := st.fg }, 0)
    else if (30 ≤ code ∧ code ≤ 37) ∨ (90 ≤ code ∧ code ≤ 97) then
      some ({ st with fg := get_ansi_to_rgb code }, 0)
    else if code = 38 then
      match rest with
      | [] => some (st, 0)
      | p1 :: r1 =>
        if p1 = ['5'] then
          match r1 with
          | p2 :: _ =>
            match pyInt p2 with
            | some n =>
              match get_256_color n with
              | some col => some ({ st with fg := col }, 2)
              | none => none
            | none => none
          | [] => some (st, 0)
        else if p1 = ['2'] then
          match r1 with
          | p2 :: p3 :: p4 :: _ =>
            match pyInt p2, pyInt p3, pyInt p4 with
            | some r, some g, some b =>
              some ({ st with fg := ((r : Int), (g : Int), (b : Int)) }, 4)
            | _, _, _ => none
          | _ => some (st, 0)
        else some (st, 0)
    else if 40 ≤ code ∧ code ≤ 47 then
      some ({ st with bg := get_ansi_to_rgb (code - 10) }, 0)
    else if code = 48 then
      match rest with
      | [] => some (st, 0)
      | p1 :: r1 =>
        if p1 = ['5'] then
          match r1 with
          | p2 :: _ =>
            match pyInt p2 with
            | some n =>
              match get_256_color n with
              | some col => some ({ st with bg := col }, 2)
              | none => none
            | none => none
          | [] => some (st, 0)
        else if p1 = ['2'] then
          match r1 with
          | p2 :: p3 :: p4 :: _ =>
            match pyInt p2, pyInt p3, pyInt p4 with
            | some r, some g, some b =>
              some ({ st with bg := ((r : Int), (g : Int), (b : Int)) }, 4)
            | _, _, _ => none
          | _ => some (st, 0)
        else some (st, 0)
    else some (st, 0)

/-- The full code-application loop of `record_all.py`: run one iteration
and skip the consumed sub-form parameter words. -/
def applyCodesAll (st : AnsiState) : List (List Char) → Option AnsiState
  | [] => some st
  | c :: rest =>
    match sgrStepAll st c rest with
    | none => none
    | some (st1, k) => applyCodesAll st1 (rest.drop k)
termination_by codes => codes.length
decreasing_by simp only [List.length_cons, List.length_drop]; omega

/-- The full code-application loop of `record_demos.py`. -/
def applyCodesDemos (st : AnsiState) : List (List Char) → Option AnsiState
  | [] => some st
  | c :: rest =>
    match sgrStepDemos st c rest with
    | none => none
    | some (st1, k) => applyCodesDemos st1 (rest.drop k)
termination_by codes => codes.length
decreasing_by simp only [List.length_cons, List.length_drop]; omega

/-- A successful SGR match consumes at least the three characters
`ESC [ m`, so the rest is strictly shorter. -/
theorem sgrAt_some_length {cs ps r : List Char} (h : sgrAt cs = some (ps, r)) :
    r.length < cs.length := by
  unfold sgrAt at h
  split at h
  · rename_i rest
    split at h
    · rename_i ps0 r0 heq
      simp only [Option.some.injEq, Prod.mk.injEq] at h
      obtain ⟨h1, h2⟩ := h
      subst h2
      have hl := takeParams_rest_length rest
      rw [heq] at hl
      simp only [List.length_cons] at hl ⊢
      omega
    · simp at h
  · simp at h

/-- Emit the pending literal text as a (singleton) segment list — the
`if segment_text: segments.append((segment_text, fg, ...))` blocks of
lines 47-50 and 92-96; nothing is emitted for empty text. -/
def emitPending (st : AnsiState) (pending : List Char) : Option (List Seg) :=
  if pending = [] then some []
  else
    match mkSeg st pending with
    | some sg => some [sg]
    | none => none

/-- The `finditer` loop of `parse_ansi_text` (`record_all.py` lines
44-96) as a scanner: at each position, either the SGR regex matches
(flush the pending literal text as a segment with the current style,
apply the codes — `['0']` when the parameter capture is empty — and
continue after the match) or the head character joins the pending text.
This is exactly `finditer`'s leftmost, non-overlapping match semantics
for this deterministic pattern. -/
def parseAnsiLoop (st : AnsiState) (pending : List Char) (cs : List Char) :
    Option (List Seg) :=
  match hm : sgrAt cs with
  | some (ps, rest) =>
    let codes := if ps = [] then [['0']] else pySplitSemi ps
    match emitPending st pending with
    | none => none
    | some seg0 =>
      match applyCodesAll st codes with
      | none => none
      | some st1 =>
        match parseAnsiLoop st1 [] rest with
        | none => none
        | some tl => some (seg0 ++ tl)
  | none =>
    match cs with
    | [] => emitPending st pending
    | c :: cs1 => parseAnsiLoop st (pending ++ [c]) cs1
termination_by cs.length
decreasing_by
  · exact sgrAt_some_length hm
  · simp only [List.length_cons]
    omega

/-- `parse_ansi_text(text)` of `record_all.py`. -/
def parse_ansi_text (s : String) : Option (List Seg) :=
  parseAnsiLoop initState [] s.data

theorem pyInt48 : pyInt ['4', '8'] = some 48 := by decide

theorem pyInt5 : pyInt ['5'] = some 5 := by decide

theorem pyInt2 : pyInt ['2'] = some 2 := by decide

/-- Claim C5 counterexample: in `record_all.py`'s parser the SGR token
`48;5;196` does not set the background.  The whole code list leaves the
state untouched (the `5` and `196` are reinterpreted as standalone
no-op codes), even though the indexed lookup for 196 is `(255, 0, 0)`
and the background stays `(30, 30, 46)`. -/
theorem sgr48_counterexample :
    applyCodesAll initState [['4', '8'], ['5'], ['1', '9', '6']] = some initState ∧
    get_256_color 196 = some (255, 0, 0) ∧
    initState.bg = (30, 30, 46) ∧ ((30, 30, 46) : RGB) ≠ (255, 0, 0) := by
  refine ⟨?_, by decide, by decide, by decide⟩
  rw [applyCodesAll]
  rw [show sgrStepAll initState ['4', '8'] [['5'], ['1', '9', '6']] =
    some (initState, 0) from by decide]
  show applyCodesAll initState [['5'], ['1', '9', '6']] = some initState
  rw [applyCodesAll]
  rw [show sgrStepAll initState ['5'] [['1', '9', '6']] =
    some (initState, 0) from by decide]
  show applyCodesAll initState [['1', '9', '6']] = some initState
  rw [applyCodesAll]
  rw [show sgrStepAll initState ['1', '9', '6'] [] =
    some (initState, 0) from by decide]
  show applyCodesAll initState [] = some initState
  rw [applyCodesAll]

/-- Claim C5 as amended: `record_demos.py`'s parser supports both `48`
sub-forms — `48;5;<idx>` sets the background through the indexed lookup
and `48;2;<r>;<g>;<b>` sets the truecolor triple — and `record_all.py`'s
parser supports only the truecolor sub-form for `48`: there `48;5;...`
consumes nothing, the `48` is a no-op and its parameters are reprocessed
as standalone codes. -/
theorem sgr48_background_subforms :
    (∀ (st : AnsiState) (ds : List Char) (n : Nat) (col : RGB)
        (r : List (List Char)),
      pyInt ds = some n → get_256_color n = some col →
      applyCodesDemos st (['4', '8'] :: ['5'] :: ds :: r) =
        applyCodesDemos { st with bg := col } r) ∧
    (∀ (st : AnsiState) (d1 d2 d3 : List Char) (n1 n2 n3 : Nat)
        (r : List (List Char)),
      pyInt d1 = some n1 → pyInt d2 = some n2 → pyInt d3 = some n3 →
      applyCodesDemos st (['4', '8'] :: ['2'] :: d1 :: d2 :: d3 :: r) =
        applyCodesDemos { st with bg := ((n1 : Int), (n2 : Int), (n3 : Int)) } r) ∧
    (∀ (st : AnsiState) (d1 d2 d3 : List Char) (n1 n2 n3 : Nat)
        (r : List (List Char)),
      pyInt d1 = some n1 → pyInt d2 = some n2 → pyInt d3 = some n3 →
      applyCodesAll st (['4', '8'] :: ['2'] :: d1 :: d2 :: d3 :: r) =
        applyCodesAll { st with bg := ((n1 : Int), (n2 : Int), (n3 : Int)) } r) ∧
    (∀ (st : AnsiState) (ds : List Char) (r : List (List Char)),
      applyCodesAll st (['4', '8'] :: ['5'] :: ds :: r) =
        applyCodesAll st (ds :: r)) := by
  refine ⟨?_, ?_, ?_, ?_⟩
  · intro st ds n col r hn hcol
    rw [applyCodesDemos]
    rw [show sgrStepDemos st ['4', '8'] (['5'] :: ds :: r) =
        some ({ st with bg := col }, 2) from by
      unfold sgrStepDemos
      simp +decide [pyInt48, hn, hcol]]
    rfl
  · intro st d1 d2 d3 n1 n2 n3 r h1 h2 h3
    rw [applyCodesDemos]
    rw [show sgrStepDemos st ['4', '8'] (['2'] :: d1 :: d2 :: d3 :: r) =
        some ({ st with bg := ((n1 : Int), (n2 : Int), (n3 : Int)) }, 4) from by
      unfold sgrStepDemos
      simp +decide [pyInt48, h1, h2, h3]]
    rfl
  · intro st d1 d2 d3 n1 n2 n3 r h1 h2 h3
    rw [applyCodesAll]
    rw [show sgrStepAll st ['4', '8'] (['2'] :: d1 :: d2 :: d3 :: r) =
        some ({ st with bg := ((n1 : Int), (n2 : Int), (n3 : Int)) }, 4) from by
      unfold sgrStepAll
      simp +decide [pyInt48, h1, h2, h3]]
    rfl
  · intro st ds r
    rw [applyCodesAll]
    rw [show sgrStepAll st ['4', '8'] (['5'] :: ds :: r) = some (st, 0) from by
      unfold sgrStepAll
      simp +decide [pyInt48]]
    show applyCodesAll st (['5'] :: ds :: r) = _
    rw [applyCodesAll]
    rw [show sgrStepAll st ['5'] (ds :: r) = some (st, 0) from by
      unfold sgrStepAll
      simp +decide [pyInt5]]
    rfl

/-- Witness for the amended C5: the token `48;5;196` through both
parsers, and `48;2;1;2;3` through `record_all.py`'s parser. -/
theorem sgr48_background_subforms_witness :
    applyCodesDemos initState [['4', '8'], ['5'], ['1', '9', '6']] =
      applyCodesDemos { initState with bg := (255, 0, 0) } [] ∧
    applyCodesAll initState [['4', '8'], ['2'], ['1'], ['2'], ['3']] =
      applyCodesAll { initState with bg := (1, 2, 3) } [] ∧
    applyCodesAll initState [['4', '8'], ['5'], ['1', '9', '6']] =
      applyCodesAll initState [['1', '9', '6']] :=
  ⟨sgr48_background_subforms.1 initState ['1', '9', '6'] 196 (255, 0, 0) []
      (by decide) (by decide),
   sgr48_background_subforms.2.2.1 initState ['1'] ['2'] ['3'] 1 2 3 []
      (by decide) (by decide) (by decide),
   sgr48_background_subforms.2.2.2 initState ['1', '9', '6'] []⟩

/-! ## The rendering pipeline of `render_to_image`

`record_all.py` lines 182-238, up to the point where segments are drawn:
terminal-sequence processing, the control-sequence cleanup regexes of
lines 188-193, the line split with trailing-blank trimming, the per-line
`parse_ansi_text`, and the per-segment SGR strip of line 226 with the
`if not seg_text: continue` filter of line 227.  Geometry and drawing
are the out-of-scope rasterization primitives. -/

/-- Maximal leading digit run (the greedy `\d*` of the cleanup
regexes), restricted to ASCII digits — the only digits the rest of the
pipeline can feed it (Python `\d` would also match Unicode digits). -/
def takeDigits : List Char → List Char × List Char
  | [] => ([], [])
  | c :: cs =>
    if c.isDigit then
      let p := takeDigits cs
      (c :: p.1, p.2)
    else ([], c :: cs)

/-- `re.sub(pattern, '', text)` for a pattern recognised by `m`, which
reports the length of a match starting at the given position: scan left
to right, delete each match and continue after it (a zero-length report
is treated as no match; all patterns here match at least two
characters). -/
def scrub (m : List Char → Option Nat) : List Char → List Char
  | [] => []
  | c :: cs =>
    match m (c :: cs) with
    | some n =>
      if h : n = 0 then c :: scrub m cs else scrub m ((c :: cs).drop n)
    | none => c :: scrub m cs
termination_by l => l.length
decreasing_by
  · simp only [List.length_cons]
    omega
  · simp only [List.length_cons, List.length_drop]
    omega

/-- `\x1b\[\?25[lh]` (line 188, hide/show cursor). -/
def mVis : List Char → Option Nat
  | '\x1b' :: '[' :: '?' :: '2' :: '5' :: c :: _ =>
    if c = 'l' ∨ c = 'h' then some 6 else none
  | _ => none

/-- `\x1b\[\d*[ABCDJK]` (line 189, cursor movement and erase). -/
def mMove : List Char → Option Nat
  | '\x1b' :: '[' :: rest =>
    match takeDigits rest with
    | (ds, c :: _) =>
      if c = 'A' ∨ c = 'B' ∨ c = 'C' ∨ c = 'D' ∨ c = 'J' ∨ c = 'K' then
        some (2 + ds.length + 1)
      else none
    | _ => none
  | _ => none

/-- `\x1b\[2J` (line 190, clear screen). -/
def mClear2J : List Char → Option Nat
  | '\x1b' :: '[' :: '2' :: 'J' :: _ => some 4
  | _ => none

/-- `\x1b\[H` (line 191, cursor home). -/
def mHome : List Char → Option Nat
  | '\x1b' :: '[' :: 'H' :: _ => some 3
  | _ => none

/-- `\x1b\[\d+;\d+H` (line 192, cursor position). -/
def mCurPos : List Char → Option Nat
  | '\x1b' :: '[' :: rest =>
    match takeDigits rest with
    | (d1, ';' :: r1) =>
      if d1 = [] then none
      else
        match takeDigits r1 with
        | (d2, 'H' :: _) =>
          if d2 = [] then none else some (2 + d1.length + 1 + d2.length + 1)
        | _ => none
    | _ => none
  | _ => none

/-- `\x1b\[\d*[su]` (line 193, save/restore cursor). -/
def mSaveRestore : List Char → Option Nat
  | '\x1b' :: '[' :: rest =>
    match takeDigits rest with
    | (ds, c :: _) => if c = 's' ∨ c = 'u' then some (2 + ds.length + 1) else none
    | _ => none
  | _ => none

/-- The SGR pattern `\x1b\[[0-9;]*m` as a deleting matcher — the
per-segment `re.sub` of line 226. -/
def mSgrDel (cs : List Char) : Option Nat :=
  match sgrAt cs with
  | some (ps, _) => some (2 + ps.length + 1)
  | none => none

/-- The six cleanup substitutions of lines 188-193, in source order. -/
def cleanControl (t : List Char) : List Char :=
  scrub mSaveRestore (scrub mCurPos (scrub mHome (scrub mClear2J
    (scrub mMove (scrub mVis t)))))

/-- `text.split('\n')` (line 207). -/
def pySplitLines : List Char → List (List Char)
  | [] => [[]]
  | c :: t =>
    match pySplitLines t with
    | [] => [[]]
    | p :: ps => if c = '\n' then [] :: p :: ps else (c :: p) :: ps

/-- Python `str.strip()` whitespace, ASCII part (the characters that can
appear in this pipeline; Python also strips some Unicode spaces). -/
def pyIsSpace (c : Char) : Bool :=
  c == ' ' || c == '\t' || c == '\n' || c == '\r' || c == '\x0b' || c == '\x0c'

/-- `while lines and not lines[-1].strip(): lines.pop()` (lines
210-211). -/
def popTrailingBlank (ls : List (List Char)) : List (List Char) :=
  (ls.reverse.dropWhile (fun l => l.all pyIsSpace)).reverse

/-- The drawn segments of `render_to_image` (lines 185-227): process
terminal sequences, apply the cleanup substitutions, split into lines
and trim trailing blank ones, parse each line with a fresh default
style, strip SGR sequences from each segment text and keep the
non-empty ones. -/
def renderedSegments (s : String) : Option (List Seg) :=
  match ptsLoop [] [] s.data with
  | none => none
  | some lsRaw =>
    let t := cleanControl (List.intercalate ['\n'] lsRaw)
    let ls := popTrailingBlank (pySplitLines t)
    match ls.mapM (fun line => parseAnsiLoop initState [] line) with
    | none => none
    | some segLists =>
      some ((segLists.flatten.map
        (fun sg => { sg with text := scrub mSgrDel sg.text })).filter
        (fun sg => !sg.text.isEmpty))

/-- There is no SGR match inside `t`: no suffix of `t` begins one. -/
def sgrFree (t : List Char) : Prop := ∀ j : Nat, sgrAt (t.drop j) = none

theorem sgrAt_some_decomp {s ps r : List Char} (h : sgrAt s = some (ps, r)) :
    s = '\x1b' :: '[' :: (ps ++ 'm' :: r) ∧ ∀ c ∈ ps, isParamChar c := by
  unfold sgrAt at h
  split at h
  · rename_i tl
    split at h
    · rename_i ps0 r0 heq
      simp only [Option.some.injEq, Prod.mk.injEq] at h
      obtain ⟨h1, h2⟩ := h
      subst h1
      subst h2
      constructor
      · have happ := takeParams_append tl
        rw [heq] at happ
        rw [← happ]
      · intro c hc
        have hmem := takeParams_mem (l := tl)
        rw [heq] at hmem
        exact hmem c hc
    · simp at h
  · simp at h

/-- An SGR match at the start of a buffer survives appending more input;
this is what makes the scanner's per-position checks conclusive. -/
theorem sgrAt_append_some {s ps r : List Char} (h : sgrAt s = some (ps, r))
    (e : List Char) : sgrAt (s ++ e) = some (ps, r ++ e) := by
  obtain ⟨hs, hps⟩ := sgrAt_some_decomp h
  subst hs
  simp only [List.cons_append]
  have hshape : (ps ++ 'm' :: r) ++ e = ps ++ 'm' :: (r ++ e) := by simp
  rw [hshape]
  show (match takeParams (ps ++ 'm' :: (r ++ e)) with
        | (ps1, 'm' :: r1) => some (ps1, r1)
        | _ => none) = some (ps, r ++ e)
  rw [takeParams_frame hps (by decide) (r ++ e)]
  rfl

/-- If no SGR match starts at any position of the pending text (checked
against the full remaining input), the pending text itself is
SGR-free. -/
theorem pending_sgrFree {pending cs : List Char}
    (hinv : ∀ j, j < pending.length → sgrAt (pending.drop j ++ cs) = none) :
    sgrFree pending := by
  intro j
  by_cases hj : j < pending.length
  · have h := hinv j hj
    cases hs : sgrAt (pending.drop j) with
    | none => rfl
    | some pr =>
      obtain ⟨ps, r⟩ := pr
      rw [sgrAt_append_some hs cs] at h
      simp at h
  · rw [List.drop_eq_nil_of_le (by omega)]
    rfl

theorem mkSeg_text {st : AnsiState} {t : List Char} {sg : Seg}
    (h : mkSeg st t = some sg) : sg.text = t := by
  unfold mkSeg at h
  cases hd : dimFg st with
  | none => rw [hd] at h; simp at h
  | some fg =>
    rw [hd] at h
    simp at h
    rw [← h]

theorem emitPending_texts {st : AnsiState} {pending : List Char}
    {segs : List Seg} (h : emitPending st pending = some segs) :
    ∀ sg ∈ segs, sg.text = pending := by
  unfold emitPending at h
  by_cases hp : pending = []
  · rw [if_pos hp] at h
    simp only [Option.some.injEq] at h
    intro sg hsg
    rw [← h] at hsg
    simp at hsg
  · rw [if_neg hp] at h
    split at h
    · rename_i sg0 hmk
      simp only [Option.some.injEq] at h
      intro sg hsg
      rw [← h] at hsg
      simp only [List.mem_singleton] at hsg
      subst hsg
      exact mkSeg_text hmk
    · simp at h

/-- The continuation of the parse loop after an SGR match: the flushed
segment carries the pending text; the tail segments come from the
recursive call. -/
theorem parseCont_sgrFree {st : AnsiState} {pending rest : List Char}
    {codes : List (List Char)} {segs : List Seg} {cs : List Char}
    (hres : (match emitPending st pending with
             | none => none
             | some seg0 =>
               match applyCodesAll st codes with
               | none => none
               | some st1 =>
                 match parseAnsiLoop st1 [] rest with
                 | none => none
                 | some tl => some (seg0 ++ tl)) = some segs)
    (hinv : ∀ j, j < pending.length → sgrAt (pending.drop j ++ cs) = none)
    (htail : ∀ (st1 : AnsiState) (tl : List Seg),
      parseAnsiLoop st1 [] rest = some tl → ∀ sg ∈ tl, sgrFree sg.text) :
    ∀ sg ∈ segs, sgrFree sg.text := by
  intro sg hsg
  split at hres
  · simp at hres
  · rename_i seg0 hemit
    split at hres
    · simp at hres
    · rename_i st1 happly
      split at hres
      · simp at hres
      · rename_i tl hrec
        simp only [Option.some.injEq] at hres
        subst hres
        rcases List.mem_append.mp hsg with hsg2 | hsg2
        · rw [emitPending_texts hemit sg hsg2]
          exact pending_sgrFree hinv
        · exact htail st1 tl hrec sg hsg2

/-- Invariant of the `parse_ansi_text` scanner: every emitted segment
text is SGR-free.  The induction carries the fact that no SGR match
starts inside the pending text, checked against the full remaining
input. -/
theorem parseAnsiLoop_sgrFree :
    ∀ (N : Nat) (cs : List Char), cs.length ≤ N →
      ∀ (st : AnsiState) (pending : List Char),
        (∀ j, j < pending.length → sgrAt (pending.drop j ++ cs) = none) →
        ∀ segs, parseAnsiLoop st pending cs = some segs →
        ∀ sg ∈ segs, sgrFree sg.text := by
  intro N
  induction N with
  | zero =>
    intro cs hcs st pending hinv segs hres sg hsg
    have hcs0 : cs = [] := List.eq_nil_of_length_eq_zero (by omega)
    subst hcs0
    rw [parseAnsiLoop.eq_def] at hres
    split at hres
    · rename_i ps rest hm
      simp [sgrAt] at hm
    · split at hres
      · have htext := emitPending_texts hres sg hsg
        rw [htext]
        exact pending_sgrFree hinv
      · simp_all
  | succ N ih =>
    intro cs hcs st pending hinv segs hres sg hsg
    rw [parseAnsiLoop.eq_def] at hres
    split at hres
    · rename_i ps rest hm
      have hlen : rest.length ≤ N := by
        have := sgrAt_some_length hm
        omega
      have htail : ∀ (st1 : AnsiState) (tl : List Seg),
          parseAnsiLoop st1 [] rest = some tl → ∀ s2 ∈ tl, sgrFree s2.text :=
        fun st1 tl h => ih rest hlen st1 [] (by intro j hj; simp at hj) tl h
      split at hres
      · exact parseCont_sgrFree hres hinv htail sg hsg
      · exact parseCont_sgrFree hres hinv htail sg hsg
    · rename_i hm
      split at hres
      · have htext := emitPending_texts hres sg hsg
        rw [htext]
        have hinv2 : ∀ j, j < pending.length →
            sgrAt (pending.drop j ++ ([] : List Char)) = none := by
          intro j hj
          have h0 := hinv j hj
          simpa using h0
        exact pending_sgrFree hinv2
      · rename_i c cs1
        refine ih cs1 (by simp at hcs; omega) st (pending ++ [c]) ?_ segs hres sg hsg
        intro j hj
        simp only [List.length_append, List.length_cons, List.length_nil] at hj
        rw [List.drop_append_eq_append_drop]
        by_cases hjp : j < pending.length
        · have h0 := hinv j hjp
          have hz : j - pending.length = 0 := by omega
          rw [hz]
          simpa using h0
        · have hj1 : j = pending.length := by omega
          subst hj1
          rw [List.drop_eq_nil_of_le (by omega), Nat.sub_self]
          simpa using hm

/-- When the buffer does not start with an SGR match, the head character
joins the pending text. -/
theorem parseAnsiLoop_step_char (st : AnsiState) (pending : List Char)
    (c : Char) (cs1 : List Char) (h : sgrAt (c :: cs1) = none) :
    parseAnsiLoop st pending (c :: cs1) = parseAnsiLoop st (pending ++ [c]) cs1 := by
  rw [parseAnsiLoop.eq_def]
  split
  · rename_i ps rest hm
    rw [h] at hm
    simp at hm
  · rfl

/-- A buffer with no SGR match anywhere is one literal segment. -/
theorem parseAnsiLoop_plain (st : AnsiState) :
    ∀ (t pending : List Char),
      (∀ j, j < t.length → sgrAt (t.drop j) = none) →
      parseAnsiLoop st pending t = emitPending st (pending ++ t) := by
  intro t
  induction t with
  | nil =>
    intro pending h
    rw [parseAnsiLoop.eq_def]
    split
    · rename_i ps rest hm
      simp [sgrAt] at hm
    · simp only [List.append_nil]
  | cons c t ih =>
    intro pending h
    rw [parseAnsiLoop_step_char st pending c t (h 0 (by simp))]
    rw [ih (pending ++ [c]) (fun j hj => by
      have h2 := h (j + 1) (by simp only [List.length_cons]; omega)
      simpa using h2)]
    simp

/-- A buffer in which `m` never matches is scrubbed to itself. -/
theorem scrub_nomatch (m : List Char → Option Nat) :
    ∀ t : List Char, (∀ j, j < t.length → m (t.drop j) = none) →
      scrub m t = t := by
  intro t
  induction t with
  | nil => intro h; rw [scrub]
  | cons c cs ih =>
    intro h
    rw [scrub]
    rw [show m (c :: cs) = none from by simpa using h 0 (by simp)]
    rw [ih (fun j hj => by
      have h2 := h (j + 1) (by simp only [List.length_cons]; omega)
      simpa using h2)]

/-- Claim C10 as amended: every Segment emitted by the parser has text
free of complete SGR sequences (`ESC [ params m`) — but not of all
escape bytes: a sequence with an unrecognized terminator survives the
whole pipeline into a drawn segment's text (see the counterexample). -/
theorem segment_sgr_free :
    ∀ (s : String) (segs : List Seg), parse_ansi_text s = some segs →
      ∀ sg ∈ segs, sgrFree sg.text := by
  intro s segs h sg hsg
  exact parseAnsiLoop_sgrFree s.data.length s.data (Nat.le_refl _) initState []
    (by intro j hj; simp at hj) segs h sg hsg

/-- Witness for the amended C10: the single segment of `"ab"`. -/
theorem segment_sgr_free_witness : sgrFree ['a', 'b'] := by
  have hp : parse_ansi_text "ab" =
      some [⟨['a', 'b'], (229, 229, 229), (30, 30, 46), false, false, false⟩] := by
    show parseAnsiLoop initState [] ['a', 'b'] = _
    rw [parseAnsiLoop_plain initState ['a', 'b'] [] (by decide)]
    decide
  have h := segment_sgr_free "ab"
    [⟨['a', 'b'], (229, 229, 229), (30, 30, 46), false, false, false⟩] hp
    ⟨['a', 'b'], (229, 229, 229), (30, 30, 46), false, false, false⟩ (by simp)
  simpa using h

/-- Claim C10 counterexample: the input `"\x1b[5Xa"` contains an escape
sequence with the unrecognized terminator `X`; it survives the terminal
state machine (preserved verbatim), all cleanup substitutions and the
SGR strip, and the single drawn segment's text still contains the `ESC`
byte. -/
theorem segment_escape_counterexample :
    renderedSegments "\x1b[5Xa" =
      some [⟨['\x1b', '[', '5', 'X', 'a'], (229, 229, 229), (30, 30, 46),
            false, false, false⟩] ∧
    '\x1b' ∈ (['\x1b', '[', '5', 'X', 'a'] : List Char) := by
  constructor
  · have hpts : ptsLoop [] [] ("\x1b[5Xa".data) =
        some [['\x1b', '[', '5', 'X', 'a']] := by
      simp [ptsLoop, takeParams, isParamChar, ptsFinish]
    unfold renderedSegments
    rw [hpts]
    simp only []
    have hint : List.intercalate ['\n'] [['\x1b', '[', '5', 'X', 'a']] =
        ['\x1b', '[', '5', 'X', 'a'] := by decide
    rw [hint]
    have hclean : cleanControl ['\x1b', '[', '5', 'X', 'a'] =
        ['\x1b', '[', '5', 'X', 'a'] := by
      unfold cleanControl
      rw [scrub_nomatch mVis _ (by decide)]
      rw [scrub_nomatch mMove _ (by decide)]
      rw [scrub_nomatch mClear2J _ (by decide)]
      rw [scrub_nomatch mHome _ (by decide)]
      rw [scrub_nomatch mCurPos _ (by decide)]
      rw [scrub_nomatch mSaveRestore _ (by decide)]
    rw [hclean]
    have hsplit : popTrailingBlank (pySplitLines ['\x1b', '[', '5', 'X', 'a']) =
        [['\x1b', '[', '5', 'X', 'a']] := by decide
    rw [hsplit]
    have hparse : parseAnsiLoop initState [] ['\x1b', '[', '5', 'X', 'a'] =
        some [⟨['\x1b', '[', '5', 'X', 'a'], (229, 229, 229), (30, 30, 46),
              false, false, false⟩] := by
      rw [parseAnsiLoop_plain initState ['\x1b', '[', '5', 'X', 'a'] [] (by decide)]
      all_goals decide
    rw [List.mapM_cons, hparse]
    simp only [List.mapM_nil]
    have hstrip : scrub mSgrDel ['\x1b', '[', '5', 'X', 'a'] =
        ['\x1b', '[', '5', 'X', 'a'] :=
      scrub_nomatch mSgrDel _ (by decide)
    simp [hstrip]
  · decide

/-! ## Frame Reducer: `record_animated`

`record_all.py` lines 342-432.  The rasterizer proper (fonts, drawing)
is an external collaborator per the specification; a normalized frame
canvas enters the reducer only through `list(img.getdata())`, so a frame
is modelled by its flattened pixel list. -/

/-- A normalized frame canvas, as its flattened pixel data
(`list(img.getdata())`, line 389). -/
abbrev Image := List RGB

/-- `len(set(pixels)) > 1` (line 390): the frame has at least two
distinct pixel values, i.e. non-background content. -/
def multiColor : Image → Bool
  | [] => false
  | p :: rest => rest.any (· != p)

/-- Index of the first frame with content — the `for i, img in
enumerate(normalized): if ...: non_empty_start = i; break` scan
(lines 386-392). -/
def firstContentIdx : List Image → Option Nat
  | [] => none
  | img :: rest =>
    if multiColor img then some 0 else (firstContentIdx rest).map (· + 1)

/-- `normalized = normalized[non_empty_start:]` (line 393).  When no
frame has content the loop never executes its `break`, `non_empty_start`
stays 0, and the list passes through unchanged. -/
def blankTrim (frames : List Image) : List Image :=
  match firstContentIdx frames with
  | some i => frames.drop i
  | none => frames

/-- Python extended slice `l[::k]` for `k ≥ 1`: every `k`-th element
starting at index 0 (line 402). -/
def pySliceStep : List α → Nat → List α
  | [], _ => []
  | a :: t, k => a :: pySliceStep (t.drop (k - 1)) k
termination_by l => l.length
decreasing_by simp [List.length_drop]; omega

/-- Lines 399-404: `if len(normalized) > 60: step = len(normalized) //
60; final_frames = normalized[::step] else: final_frames = normalized`. -/
def subsampleFrames (l : List Image) : List Image :=
  if 60 < l.length then pySliceStep l (l.length / 60) else l

/-- The frame-reduction stage of `record_animated` on the normalized
canvases (lines 350-404): `none` models the early `return` paths that
write no artifact (`if not frames` at 350-352 / `if not images` at
360-362, and `if not normalized` after the blank trim at 395-397);
`some fs` is the frame list handed to the palette/GIF encoding, which
preserves the frame count. -/
def recordAnimatedFrames (normalized : List Image) : Option (List Image) :=
  if normalized = [] then none
  else
    let trimmed := blankTrim normalized
    if trimmed = [] then none
    else some (subsampleFrames trimmed)

/-- Three concrete pairwise-distinct frames with content, each two
pixels. -/
def imgF : Image := [(0, 0, 0), (1, 1, 1)]

/-- Second distinct content frame. -/
def imgG : Image := [(0, 0, 0), (2, 2, 2)]

/-- Third distinct content frame. -/
def imgH : Image := [(0, 0, 0), (3, 3, 3)]

/-- Claim C2 counterexample: the reducer performs no deduplication —
the sequence `[F, F, G, G, G, H]` of distinct non-blank frames (well
under the 60-frame budget) is passed through unchanged, not collapsed to
`[F, G, H]`. -/
theorem dedup_counterexample :
    recordAnimatedFrames [imgF, imgF, imgG, imgG, imgG, imgH] =
      some [imgF, imgF, imgG, imgG, imgG, imgH] ∧
    ([imgF, imgF, imgG, imgG, imgG, imgH] : List Image) ≠ [imgF, imgG, imgH] := by
  constructor
  · decide
  · decide

/-- Claim C2 as amended: `record_animated` performs no deduplication of
consecutive pixel-identical frames; any frame sequence whose first frame
has content and whose length is within the 60-frame budget is passed to
the encoder unchanged. -/
theorem frames_pass_through_unchanged (f : Image) (fs : List Image)
    (hf : multiColor f = true) (hlen : (f :: fs).length ≤ 60) :
    recordAnimatedFrames (f :: fs) = some (f :: fs) := by
  unfold recordAnimatedFrames blankTrim
  rw [if_neg (by simp)]
  unfold firstContentIdx
  rw [if_pos hf]
  simp only [List.drop_zero]
  rw [if_neg (by simp)]
  unfold subsampleFrames
  rw [if_neg (by omega)]

/-- Witness for the amended C2: a single two-pixel content frame passes
through. -/
theorem frames_pass_through_unchanged_witness :
    recordAnimatedFrames [imgF] = some [imgF] :=
  frames_pass_through_unchanged imgF [] (by decide) (by decide)

/-- Claim C4: evaluation of the reducer at the failing input.  With no
frames the pipeline indeed reports the empty result (`none`), but when
every captured frame is blank the blank-prefix scan leaves
`non_empty_start = 0`, the `if not normalized` guard of line 395 cannot
fire, and a GIF of blank frames is produced instead of the documented
empty-result warning. -/
theorem blank_frames_written_anyway :
    recordAnimatedFrames [] = none ∧
    recordAnimatedFrames [[(0, 0, 0), (0, 0, 0)]] =
      some [[(0, 0, 0), (0, 0, 0)]] := by
  constructor
  · decide
  · decide

/-- Exact length of a Python extended slice `l[::k]`, `k ≥ 1`:
`⌈len(l) / k⌉`. -/
theorem pySliceStep_length {k : Nat} (hk : 1 ≤ k) :
    ∀ l : List α, (pySliceStep l k).length = (l.length + k - 1) / k := by
  have main : ∀ (n : Nat) (l : List α), l.length ≤ n →
      (pySliceStep l k).length = (l.length + k - 1) / k := by
    intro n
    induction n with
    | zero =>
      intro l hl
      match l with
      | [] =>
        simp only [pySliceStep, List.length_nil, Nat.zero_add]
        rw [Nat.div_eq_of_lt (by omega)]
    | succ n ih =>
      intro l hl
      match l with
      | [] =>
        simp only [pySliceStep, List.length_nil, Nat.zero_add]
        rw [Nat.div_eq_of_lt (by omega)]
      | a :: t =>
        have hl2 : t.length ≤ n := by simp at hl; omega
        rw [pySliceStep]
        simp only [List.length_cons]
        rw [ih (t.drop (k - 1)) (by rw [List.length_drop]; omega)]
        rw [List.length_drop]
        have e1 : t.length + 1 + k - 1 = t.length + k := by omega
        rw [e1, Nat.add_div_right _ (by omega)]
        by_cases hc : k - 1 ≤ t.length
        · have e2 : t.length - (k - 1) + k - 1 = t.length := by omega
          rw [e2]
        · have e2 : t.length - (k - 1) + k - 1 = k - 1 := by omega
          rw [e2, Nat.div_eq_of_lt (by omega)]
          have e3 : t.length / k = 0 := Nat.div_eq_of_lt (by omega)
          rw [e3]
  intro l
  exact main l.length l (Nat.le_refl _)

/-- Claim C6 counterexample: 61 frames exceed the budget, the computed
stride is `61 // 60 = 1`, and subsampling leaves all 61 frames —
strictly more than the 60-frame maximum. -/
theorem subsample_budget_counterexample :
    (subsampleFrames (List.replicate 61 ([] : Image))).length = 61 ∧
    ¬ (subsampleFrames (List.replicate 61 ([] : Image))).length ≤ 60 := by
  have h : (subsampleFrames (List.replicate 61 ([] : Image))).length = 61 := by
    unfold subsampleFrames
    rw [if_pos (by simp)]
    rw [pySliceStep_length (by simp)]
    simp
  exact ⟨h, by omega⟩

/-- Claim C6 as amended: for `n > 60` frames the computed stride is
`n // 60` and subsampling keeps `⌈n / (n // 60)⌉` frames.  This can
exceed the 60-frame budget (61 frames survive unchanged) but is always
at most 119. -/
theorem subsample_length_bound :
    (∀ l : List Image, 60 < l.length →
      (subsampleFrames l).length =
        (l.length + l.length / 60 - 1) / (l.length / 60)) ∧
    (∀ l : List Image, 60 < l.length → (subsampleFrames l).length ≤ 119) := by
  have hform : ∀ l : List Image, 60 < l.length →
      (subsampleFrames l).length =
        (l.length + l.length / 60 - 1) / (l.length / 60) := by
    intro l hl
    unfold subsampleFrames
    rw [if_pos hl, pySliceStep_length (by omega)]
  refine ⟨hform, fun l hl => ?_⟩
  rw [hform l hl]
  have hk : 1 ≤ l.length / 60 := by omega
  have hb : (l.length + l.length / 60 - 1) / (l.length / 60) < 120 := by
    rw [Nat.div_lt_iff_lt_mul (by omega)]
    omega
  omega

/-- Witness for the amended C6: 61 frames stay 61 (≤ 119), matching the
formula. -/
theorem subsample_length_bound_witness :
    (subsampleFrames (List.replicate 61 ([] : Image))).length =
      (61 + 61 / 60 - 1) / (61 / 60) ∧
    (subsampleFrames (List.replicate 61 ([] : Image))).length ≤ 119 := by
  constructor
  · have h := subsample_length_bound.1 (List.replicate 61 ([] : Image))
      (by simp)
    simpa using h
  · exact subsample_length_bound.2 (List.replicate 61 ([] : Image)) (by simp)

/-- Witness for the amended C3: instantiations at 256, -1 and -17. -/
theorem get_256_color_out_of_range_witness :
    get_256_color 256 = some (248, 248, 248) ∧
    (get_256_color (-1) = colors16.get? 15 ∧ (get_256_color (-1)).isSome) ∧
    get_256_color (-17) = none :=
  ⟨get_256_color_out_of_range.1 256 (by decide),
   get_256_color_out_of_range.2.1 (-1) (by decide) (by decide),
   get_256_color_out_of_range.2.2 (-17) (by decide)⟩

end Richrs
